import Mathlib

/-!
Verification development for the HashCut video timeline editor.

The timeline data model and the engine operations are embedded shallowly:
times are rationals (seconds), ids are natural numbers drawn from a counter
threaded through the state.  The UI handlers present in the repository
(`handleSplitSelected`, `handleDuplicateSelected`, `handleSeparateAudio`,
`handleDeleteSelected`, the duration-recompute effect, the click-to-seek
logic and the file-drop loop) are translated from the source; the
timeline-store operations they call are modelled from the specification,
as marked in their doc comments.
-/

namespace HashCut

/-- An element (clip) placed on a track.  Fields follow the source's
`TimelineElement`: `startTime` is the offset from the timeline origin,
`duration` the full underlying source duration, `trimStart`/`trimEnd`
the seconds trimmed from either side. -/
structure TimelineElement where
  id : Nat
  mediaId : Nat
  name : String
  startTime : ℚ
  duration : ℚ
  trimStart : ℚ
  trimEnd : ℚ
deriving Repr, DecidableEq

/-- `effectiveDuration = duration - trimStart - trimEnd`. -/
def effectiveDuration (e : TimelineElement) : ℚ :=
  e.duration - e.trimStart - e.trimEnd

/-- `effectiveStart = startTime`. -/
def effectiveStart (e : TimelineElement) : ℚ :=
  e.startTime

/-- `effectiveEnd = startTime + effectiveDuration`. -/
def effectiveEnd (e : TimelineElement) : ℚ :=
  e.startTime + effectiveDuration e

/-- The three track kinds of the data model. -/
inductive TrackType where
  | mediaTrack
  | textTrack
  | audioTrack
deriving Repr, DecidableEq

/-- A track: an id, a fixed type, an ordered element list and a mute flag. -/
structure TimelineTrack where
  id : Nat
  type : TrackType
  elements : List TimelineElement
  muted : Bool
deriving Repr, DecidableEq

/-- The engine state: the track list plus a counter supplying fresh ids
(the source draws fresh ids from a UUID generator; the counter models
that all generated ids are new). -/
structure TimelineState where
  tracks : List TimelineTrack
  nextId : Nat
deriving Repr, DecidableEq

/-- Look up a track by id, as the source does with `tracks.find`. -/
def findTrack (st : TimelineState) (trackId : Nat) : Option TimelineTrack :=
  st.tracks.find? (fun t => t.id == trackId)

/-- Look up an element on a track, as `track.elements.find`. -/
def findElement (tr : TimelineTrack) (elementId : Nat) : Option TimelineElement :=
  tr.elements.find? (fun e => e.id == elementId)

/-- Rewrite the element list of the track with the given id, leaving all
other tracks untouched. -/
def updateTrackElements (st : TimelineState) (trackId : Nat)
    (f : List TimelineElement → List TimelineElement) : List TimelineTrack :=
  st.tracks.map (fun t => if t.id == trackId then { t with elements := f t.elements } else t)

/-- Modelled from the spec: `splitElement(trackId, elementId, atTime)` of the
timeline store (not under src/) "requires `effectiveStart < atTime <
effectiveEnd`; otherwise returns null (no mutation)…  On success: original
element's `effectiveDuration` is truncated so its `effectiveEnd == atTime`
(achieved by increasing `trimEnd`); a new element is created immediately
after, covering `[atTime, originalEffectiveEnd)` (achieved by setting its
`startTime = atTime` and `trimStart` increased by
`atTime - originalEffectiveStart`), referencing the same underlying
`mediaId`/`duration`."  Returns the updated state and the new element id. -/
def splitElement (st : TimelineState) (trackId elementId : Nat) (atTime : ℚ) :
    TimelineState × Option Nat :=
  match findTrack st trackId with
  | none => (st, none)
  | some tr =>
    match findElement tr elementId with
    | none => (st, none)
    | some el =>
      let effStart := effectiveStart el
      let effEnd := effectiveEnd el
      if atTime ≤ effStart ∨ effEnd ≤ atTime then (st, none)
      else
        let left : TimelineElement := { el with trimEnd := el.trimEnd + (effEnd - atTime) }
        let right : TimelineElement :=
          { el with id := st.nextId
                    startTime := atTime
                    trimStart := el.trimStart + (atTime - effStart) }
        ({ tracks := updateTrackElements st trackId (fun els =>
             els.flatMap (fun e => if e.id == elementId then [left, right] else [e]))
           nextId := st.nextId + 1 },
         some st.nextId)

/-- Modelled from the spec: `removeElementFromTrackWithRipple` of the
timeline store (not under src/) "deletes the element AND shifts every other
element on the same track whose `startTime` is ≥ the removed element's
`effectiveEnd` backward by the removed element's `effectiveDuration`.
Elements on other tracks are untouched."  Not-found is a silent no-op. -/
def removeElementFromTrackWithRipple (st : TimelineState) (trackId elementId : Nat) :
    TimelineState :=
  match findTrack st trackId with
  | none => st
  | some tr =>
    match findElement tr elementId with
    | none => st
    | some el =>
      let effEnd := effectiveEnd el
      let effDur := effectiveDuration el
      { st with tracks := updateTrackElements st trackId (fun els =>
          (els.filter (fun e => !(e.id == elementId))).map (fun e =>
            if effEnd ≤ e.startTime then { e with startTime := e.startTime - effDur } else e)) }

/-- Modelled from the spec: `removeElementFromTrack` of the timeline store
(not under src/) "deletes the element; no shifting of subsequent elements'
`startTime`." -/
def removeElementFromTrack (st : TimelineState) (trackId elementId : Nat) : TimelineState :=
  { st with tracks := updateTrackElements st trackId (fun els =>
      els.filter (fun e => !(e.id == elementId))) }

/-- Modelled from the spec: `splitAndKeepLeft` of the timeline store (not
under src/): "same boundary check as split; truncates the element to end at
`atTime` (increase `trimEnd`), discards the right portion entirely (no new
element created)." -/
def splitAndKeepLeft (st : TimelineState) (trackId elementId : Nat) (atTime : ℚ) :
    TimelineState :=
  match findTrack st trackId with
  | none => st
  | some tr =>
    match findElement tr elementId with
    | none => st
    | some el =>
      let effStart := effectiveStart el
      let effEnd := effectiveEnd el
      if atTime ≤ effStart ∨ effEnd ≤ atTime then st
      else
        { st with tracks := updateTrackElements st trackId (fun els =>
            els.map (fun e =>
              if e.id == elementId then { el with trimEnd := el.trimEnd + (effEnd - atTime) }
              else e)) }

/-- Modelled from the spec: `splitAndKeepRight` of the timeline store (not
under src/): "symmetric — element's `startTime`/`trimStart` adjusted so it
begins at `atTime`; left portion discarded." -/
def splitAndKeepRight (st : TimelineState) (trackId elementId : Nat) (atTime : ℚ) :
    TimelineState :=
  match findTrack st trackId with
  | none => st
  | some tr =>
    match findElement tr elementId with
    | none => st
    | some el =>
      let effStart := effectiveStart el
      let effEnd := effectiveEnd el
      if atTime ≤ effStart ∨ effEnd ≤ atTime then st
      else
        { st with tracks := updateTrackElements st trackId (fun els =>
            els.map (fun e =>
              if e.id == elementId then
                { el with startTime := atTime
                          trimStart := el.trimStart + (atTime - effStart) }
              else e)) }

/-- An element spec: all element fields except the id, which the store
generates.  This is what `addElementToTrack` receives. -/
structure ElementSpec where
  mediaId : Nat
  name : String
  startTime : ℚ
  duration : ℚ
  trimStart : ℚ
  trimEnd : ℚ
deriving Repr, DecidableEq

/-- The spec of an existing element: drop the id, keep every other field
(the source's `const { id, ...elementWithoutId } = element`). -/
def elementSpecOf (el : TimelineElement) : ElementSpec :=
  { mediaId := el.mediaId
    name := el.name
    startTime := el.startTime
    duration := el.duration
    trimStart := el.trimStart
    trimEnd := el.trimEnd }

/-- Realize a spec as an element with a chosen fresh id. -/
def ElementSpec.toElement (s : ElementSpec) (id : Nat) : TimelineElement :=
  { id := id
    mediaId := s.mediaId
    name := s.name
    startTime := s.startTime
    duration := s.duration
    trimStart := s.trimStart
    trimEnd := s.trimEnd }

/-- Whether a spec respects the trim invariant (non-negative trims whose
sum does not exceed the duration). -/
def ElementSpec.valid (s : ElementSpec) : Bool :=
  0 ≤ s.trimStart && 0 ≤ s.trimEnd && s.trimStart + s.trimEnd ≤ s.duration

/-- Modelled from the spec: `addElementToTrack` of the timeline store (not
under src/): "appends a new Element with a fresh id; `startTime` as given".
Track not found is a silent no-op; per the data-model invariant "any
operation violating `trimStart + trimEnd ≤ duration` must be rejected or
clamped", a spec breaking the trim invariant is rejected. -/
def addElementToTrack (st : TimelineState) (trackId : Nat) (s : ElementSpec) :
    TimelineState :=
  match findTrack st trackId with
  | none => st
  | some _ =>
    if s.valid then
      { tracks := updateTrackElements st trackId (fun els => els ++ [s.toElement st.nextId])
        nextId := st.nextId + 1 }
    else st

/-- Modelled from the spec: `addTrack(type)` of the timeline store (not
under src/) "creates an empty track of the given type, appended to the
track list."  Returns the new state and the fresh track id. -/
def addTrack (st : TimelineState) (ty : TrackType) : TimelineState × Nat :=
  ({ tracks := st.tracks ++ [{ id := st.nextId, type := ty, elements := [], muted := false }]
     nextId := st.nextId + 1 },
   st.nextId)

/-- Modelled from the spec: `removeTrack(trackId)` of the timeline store
(not under src/) "removes track and all its elements"; not-found is a
no-op. -/
def removeTrack (st : TimelineState) (trackId : Nat) : TimelineState :=
  { st with tracks := st.tracks.filter (fun t => !(t.id == trackId)) }

/-- Modelled from the spec: `separateAudio(trackId, elementId)` of the
timeline store (not under src/): "valid only for elements on a `media`-type
track; creates a new `audio`-type track and an Element there with identical
time bounds (`startTime`, `trimStart`, `trimEnd`), referencing the same
source.  Fails if element is not found or track type is wrong", as a
state-preserving no-op (the user-facing message carries no state). -/
def separateAudio (st : TimelineState) (trackId elementId : Nat) : TimelineState :=
  match findTrack st trackId with
  | none => st
  | some tr =>
    if tr.type ≠ TrackType.mediaTrack then st
    else
      match findElement tr elementId with
      | none => st
      | some el =>
        let newEl : TimelineElement :=
          { id := st.nextId + 1
            mediaId := el.mediaId
            name := el.name
            startTime := el.startTime
            duration := el.duration
            trimStart := el.trimStart
            trimEnd := el.trimEnd }
        { tracks := st.tracks ++
            [{ id := st.nextId, type := TrackType.audioTrack, elements := [newEl],
               muted := false }]
          nextId := st.nextId + 2 }

/-- Modelled from the spec: the move operation of the timeline store (not
under src/) — §2 lists "move" among the engine mutations; it re-places an
element at a new `startTime`, leaving duration and trims alone. -/
def moveElement (st : TimelineState) (trackId elementId : Nat) (newStart : ℚ) :
    TimelineState :=
  { st with tracks := updateTrackElements st trackId (fun els =>
      els.map (fun e => if e.id == elementId then { e with startTime := newStart } else e)) }

/-- Modelled from the spec: the trim operation of the timeline store (not
under src/) — §2 lists "trim" among the engine mutations; it sets
`trimStart`/`trimEnd`, and per the invariant "any operation violating
`trimStart + trimEnd ≤ duration` must be rejected or clamped" an update
breaking the invariant is rejected. -/
def updateElementTrim (st : TimelineState) (trackId elementId : Nat) (ts te : ℚ) :
    TimelineState :=
  { st with tracks := updateTrackElements st trackId (fun els =>
      els.map (fun e =>
        if e.id == elementId then
          if 0 ≤ ts ∧ 0 ≤ te ∧ ts + te ≤ e.duration then
            { e with trimStart := ts, trimEnd := te }
          else e
        else e)) }

/-- Modelled from the spec: `getTotalDuration` of the timeline store (not
under src/) — the playback clock's duration is recomputed from the "sum of
element extents across tracks"; a track's extent is the largest effective
end among its elements (0 when empty). -/
def trackExtent (tr : TimelineTrack) : ℚ :=
  tr.elements.foldr (fun e acc => max (effectiveEnd e) acc) 0

/-- Modelled from the spec: the total duration is the sum of the tracks'
extents (see `trackExtent`). -/
def getTotalDuration (tracks : List TimelineTrack) : ℚ :=
  (tracks.map trackExtent).sum

/-- From the source (duration `useEffect`): whenever tracks change, the
playback duration becomes `Math.max(totalDuration, 10)`. -/
def recomputeDuration (tracks : List TimelineTrack) : ℚ :=
  max (getTotalDuration tracks) 10

/-- From the source (`handleSplitSelected`): for each selected element,
look the track and element up in the rendered `tracks`, check
`currentTime > effectiveStart && currentTime < effectiveEnd`, and split;
count the successful splits.  Returns the final state and whether the
"Playhead must be within selected elements to split" error is shown
(`splitCount === 0`). -/
def handleSplitSelected (st : TimelineState) (selected : List (Nat × Nat))
    (currentTime : ℚ) : TimelineState × Bool :=
  if selected.isEmpty then (st, false)
  else
    let res := selected.foldl (fun (acc : TimelineState × Nat) sel =>
      match findTrack st sel.1 with
      | none => acc
      | some tr =>
        match findElement tr sel.2 with
        | none => acc
        | some el =>
          if effectiveStart el < currentTime ∧ currentTime < effectiveEnd el then
            let out := splitElement acc.1 sel.1 sel.2 currentTime
            match out.2 with
            | some _ => (out.1, acc.2 + 1)
            | none => (out.1, acc.2)
          else acc) (st, 0)
    (res.1, res.2 == 0)

/-- From the source (`handleDuplicateSelected`): a no-op unless exactly one
element is selected; otherwise the element's fields (id dropped) are
re-added on the same track at
`startTime + (duration - trimStart - trimEnd) + 0.1`. -/
def handleDuplicateSelected (st : TimelineState) (selected : List (Nat × Nat)) :
    TimelineState :=
  if selected.isEmpty then st
  else if selected.length ≠ 1 then st
  else
    selected.foldl (fun accSt sel =>
      match findTrack st sel.1 with
      | none => accSt
      | some tr =>
        match findElement tr sel.2 with
        | none => accSt
        | some el =>
          let newStartTime := el.startTime + (el.duration - el.trimStart - el.trimEnd) + 1/10
          addElementToTrack accSt sel.1 { elementSpecOf el with startTime := newStartTime }) st

/-- From the source (`handleSeparateAudio`): requires exactly one selected
element on a track of type `media` (otherwise an error toast, no state
change), then calls `separateAudio`. -/
def handleSeparateAudio (st : TimelineState) (selected : List (Nat × Nat)) :
    TimelineState :=
  match selected with
  | [sel] =>
    match findTrack st sel.1 with
    | none => st
    | some tr =>
      if tr.type ≠ TrackType.mediaTrack then st
      else separateAudio st sel.1 sel.2
  | _ => st

/-- From the source (`handleDeleteSelected`): each selected element is
removed, with ripple when ripple editing is enabled. -/
def handleDeleteSelected (st : TimelineState) (selected : List (Nat × Nat))
    (rippleEditingEnabled : Bool) : TimelineState :=
  if selected.isEmpty then st
  else
    selected.foldl (fun accSt sel =>
      if rippleEditingEnabled then removeElementFromTrackWithRipple accSt sel.1 sel.2
      else removeElementFromTrack accSt sel.1 sel.2) st

/-! ### Click-vs-drag disambiguation (from the source) -/

/-- The mutable `mouseTrackingRef` record of the source. -/
structure MouseTracking where
  isMouseDown : Bool
  downX : ℚ
  downY : ℚ
  downTime : ℚ
deriving Repr, DecidableEq

/-- Which timeline region a pointer event's target lies in. -/
structure PointerTarget where
  onTimelineElement : Bool
  onPlayhead : Bool
  onTrackLabels : Bool
deriving Repr, DecidableEq

/-- From the source (`handleTimelineMouseDown`): the event targets timeline
background iff it is on none of element, playhead, track labels. -/
def isTimelineBackground (t : PointerTarget) : Bool :=
  !t.onTimelineElement && !t.onPlayhead && !t.onTrackLabels

/-- From the source (`handleTimelineMouseDown`): a pointer-down on timeline
background records position and timestamp; elsewhere the record is left
as-is. -/
def handleTimelineMouseDown (prev : MouseTracking) (target : PointerTarget)
    (clientX clientY timeStamp : ℚ) : MouseTracking :=
  if isTimelineBackground target then
    { isMouseDown := true, downX := clientX, downY := clientY, downTime := timeStamp }
  else prev

/-- A pointer-up (click) event as seen by `handleTimelineContentClick`. -/
structure ClickEvent where
  clientX : ℚ
  clientY : ℚ
  timeStamp : ℚ
  target : PointerTarget
deriving Repr, DecidableEq

/-- From the source (`handleTimelineContentClick`): whether the pointer-up
reaches the `seek(time)` call.  The guards, in source order: a recorded
mouse-down; movement at most 5px in each axis and at most 500ms elapsed
(`deltaX > 5 || deltaY > 5 || deltaTime > 500` aborts); no selection-box
activity; and a target on none of element, playhead, track labels. -/
def performsSeek (tracking : MouseTracking) (isSelecting justFinishedSelecting : Bool)
    (e : ClickEvent) : Bool :=
  if !tracking.isMouseDown then false
  else
    let deltaX := abs (e.clientX - tracking.downX)
    let deltaY := abs (e.clientY - tracking.downY)
    let deltaTime := e.timeStamp - tracking.downTime
    if 5 < deltaX ∨ 5 < deltaY ∨ 500 < deltaTime then false
    else if isSelecting || justFinishedSelecting then false
    else if e.target.onTimelineElement then false
    else if e.target.onPlayhead then false
    else if e.target.onTrackLabels then false
    else true

/-! ### Click-to-seek time computation (from the source) -/

/-- Modelled from the spec: `snapTimeToFrame` of the timeline constants
module (not under src/) — "frame boundaries (`t` rounded to nearest
`1/fps`)". -/
def snapTimeToFrame (time fps : ℚ) : ℚ :=
  ((round (time * fps) : ℤ) : ℚ) / fps

/-- From the source: `activeProject?.fps || 30` — a missing project fps, or
a zero (falsy) one, falls back to 30. -/
def resolveFps (fps : Option ℚ) : ℚ :=
  match fps with
  | some f => if f == 0 then 30 else f
  | none => 30

/-- From the source (`handleTimelineContentClick`): the time handed to
`seek` is the pixel position converted to seconds, clamped to
`[0, duration]`, then snapped to the project frame rate. -/
def clickSeekTime (duration pixelsPerSecond zoomLevel mouseX scrollLeft : ℚ)
    (fps : Option ℚ) : ℚ :=
  let rawTime := max 0 (min duration ((mouseX + scrollLeft) / (pixelsPerSecond * zoomLevel)))
  snapTimeToFrame rawTime (resolveFps fps)

/-! ### External media drop (from the source's `handleDrop` file branch) -/

/-- A stored media item: what the media store holds after `addMediaItem`. -/
structure MediaItem where
  id : Nat
  name : String
  url : String
  duration : ℚ
deriving Repr, DecidableEq

/-- A processed item as returned by `processMediaFiles` (no id yet). -/
structure ProcessedItem where
  name : String
  url : String
  duration : ℚ
deriving Repr, DecidableEq

/-- Media list and timeline together, with the media-id counter. -/
structure MediaLibraryState where
  mediaItems : List MediaItem
  timeline : TimelineState
  nextMediaId : Nat
deriving Repr, DecidableEq

/-- Modelled from the spec: `addMediaItem` of the media store (not under
src/) — the media asset provider "supplies `{id, type, name, url,
duration?, …}` records"; adding stores the processed record under a fresh
id. -/
def addMediaItem (s : MediaLibraryState) (p : ProcessedItem) : MediaLibraryState :=
  { s with
      mediaItems := s.mediaItems ++
        [{ id := s.nextMediaId, name := p.name, url := p.url, duration := p.duration }]
      nextMediaId := s.nextMediaId + 1 }

/-- Modelled from the spec: `addMediaToNewTrack` of the timeline store (not
under src/) — an external asset drop is "handled by the track-creation
path": a fresh media track holding one element referencing the item at its
full duration, untrimmed, at time 0. -/
def addMediaToNewTrack (st : TimelineState) (m : MediaItem) : TimelineState :=
  { tracks := st.tracks ++
      [{ id := st.nextId
         type := TrackType.mediaTrack
         elements := [{ id := st.nextId + 1, mediaId := m.id, name := m.name,
                        startTime := 0, duration := m.duration,
                        trimStart := 0, trimEnd := 0 }]
         muted := false }]
    nextId := st.nextId + 2 }

/-- From the source (`handleDrop`): one iteration of the file-drop loop —
`await addMediaItem(...)`, then re-read the media list, find the added item
by name and url, and only if found add it to a new track. -/
def dropStep (s : MediaLibraryState) (p : ProcessedItem) : MediaLibraryState :=
  let s1 := addMediaItem s p
  match s1.mediaItems.find? (fun m => m.name == p.name && m.url == p.url) with
  | some added => { s1 with timeline := addMediaToNewTrack s1.timeline added }
  | none => s1

/-- From the source (`handleDrop`): the file-drop loop over the processed
items.  `failAt = some k` models `addMediaItem` throwing on the k-th item:
the `try/catch` around the whole loop then stops processing there, keeping
whatever the earlier iterations added; `none` is a failure-free run. -/
def handleDropFiles (s : MediaLibraryState) (items : List ProcessedItem)
    (failAt : Option Nat) : MediaLibraryState :=
  match items, failAt with
  | [], _ => s
  | _ :: _, some 0 => s
  | p :: rest, some (n + 1) => handleDropFiles (dropStep s p) rest (some n)
  | p :: rest, none => handleDropFiles (dropStep s p) rest none

/-! ### The engine command alphabet, for the global trim invariant -/

/-- One engine command, covering the operations the invariant claim
ranges over. -/
inductive TimelineOp where
  | addElement (trackId : Nat) (s : ElementSpec)
  | removeElement (trackId elementId : Nat)
  | rippleRemove (trackId elementId : Nat)
  | splitAt (trackId elementId : Nat) (atTime : ℚ)
  | keepLeft (trackId elementId : Nat) (atTime : ℚ)
  | keepRight (trackId elementId : Nat) (atTime : ℚ)
  | separate (trackId elementId : Nat)
  | duplicate (selected : List (Nat × Nat))
  | move (trackId elementId : Nat) (newStart : ℚ)
  | trim (trackId elementId : Nat) (ts te : ℚ)
  | newTrack (ty : TrackType)
  | dropTrack (trackId : Nat)

/-- Apply one engine command to the state. -/
def applyOp (st : TimelineState) : TimelineOp → TimelineState
  | .addElement tid s => addElementToTrack st tid s
  | .removeElement tid eid => removeElementFromTrack st tid eid
  | .rippleRemove tid eid => removeElementFromTrackWithRipple st tid eid
  | .splitAt tid eid t => (splitElement st tid eid t).1
  | .keepLeft tid eid t => splitAndKeepLeft st tid eid t
  | .keepRight tid eid t => splitAndKeepRight st tid eid t
  | .separate tid eid => separateAudio st tid eid
  | .duplicate sel => handleDuplicateSelected st sel
  | .move tid eid x => moveElement st tid eid x
  | .trim tid eid a b => updateElementTrim st tid eid a b
  | .newTrack ty => (addTrack st ty).1
  | .dropTrack tid => removeTrack st tid

/-- The element trim invariant: non-negative trims summing to at most the
duration. -/
def wfElement (e : TimelineElement) : Prop :=
  0 ≤ e.trimStart ∧ 0 ≤ e.trimEnd ∧ e.trimStart + e.trimEnd ≤ e.duration

instance (e : TimelineElement) : Decidable (wfElement e) := by
  unfold wfElement; infer_instance

/-- The invariant over the whole state. -/
def wfState (st : TimelineState) : Prop :=
  ∀ t ∈ st.tracks, ∀ e ∈ t.elements, wfElement e

instance (st : TimelineState) : Decidable (wfState st) := by
  unfold wfState; infer_instance

/-! ### Demo fixtures used by witnesses -/

/-- The spec's worked example: `{duration:10, trimStart:0, trimEnd:0,
startTime:0}`. -/
def demoElement : TimelineElement :=
  { id := 0, mediaId := 100, name := "clip", startTime := 0, duration := 10,
    trimStart := 0, trimEnd := 0 }

/-- A media track holding the demo element. -/
def demoTrack : TimelineTrack :=
  { id := 1, type := TrackType.mediaTrack, elements := [demoElement], muted := false }

/-- A one-track state with the id counter past all used ids. -/
def demoState : TimelineState :=
  { tracks := [demoTrack], nextId := 2 }

/-- The spec's ripple example, element A covering 0–5. -/
def rippleDemoA : TimelineElement :=
  { id := 0, mediaId := 100, name := "A", startTime := 0, duration := 5,
    trimStart := 0, trimEnd := 0 }

/-- The spec's ripple example, element B covering 5–10. -/
def rippleDemoB : TimelineElement :=
  { id := 2, mediaId := 100, name := "B", startTime := 5, duration := 5,
    trimStart := 0, trimEnd := 0 }

/-- A track holding A then B, back to back. -/
def rippleDemoTrack : TimelineTrack :=
  { id := 1, type := TrackType.mediaTrack, elements := [rippleDemoA, rippleDemoB],
    muted := false }

/-- The ripple example state. -/
def rippleDemoState : TimelineState :=
  { tracks := [rippleDemoTrack], nextId := 3 }

/-- The spec's duration example: an element ending at 12.3 seconds. -/
def durationDemoElement : TimelineElement :=
  { id := 0, mediaId := 100, name := "clip", startTime := 2, duration := 103/10,
    trimStart := 0, trimEnd := 0 }

/-- A track holding the 12.3-second-extent element. -/
def durationDemoTrack : TimelineTrack :=
  { id := 1, type := TrackType.mediaTrack, elements := [durationDemoElement],
    muted := false }

/-- An empty media library and timeline, for the drop examples. -/
def dropDemoState : MediaLibraryState :=
  { mediaItems := [], timeline := { tracks := [], nextId := 0 }, nextMediaId := 0 }

/-- Two processed files with distinct object URLs. -/
def dropDemoItems : List ProcessedItem :=
  [{ name := "a", url := "u1", duration := 3 },
   { name := "b", url := "u2", duration := 4 }]

/-! ### Lookup helper lemmas -/

theorem findTrack_mem {st : TimelineState} {tid : Nat} {tr : TimelineTrack}
    (h : findTrack st tid = some tr) : tr ∈ st.tracks :=
  List.mem_of_find?_eq_some h

theorem findTrack_id {st : TimelineState} {tid : Nat} {tr : TimelineTrack}
    (h : findTrack st tid = some tr) : tr.id = tid := by
  have := List.find?_some h
  simpa using this

theorem findElement_mem {tr : TimelineTrack} {eid : Nat} {el : TimelineElement}
    (h : findElement tr eid = some el) : el ∈ tr.elements :=
  List.mem_of_find?_eq_some h

theorem findElement_id {tr : TimelineTrack} {eid : Nat} {el : TimelineElement}
    (h : findElement tr eid = some el) : el.id = eid := by
  have := List.find?_some h
  simpa using this

/-- The rewritten track is a member of the updated track list. -/
theorem updateTrackElements_target {st : TimelineState} {tid : Nat} {tr : TimelineTrack}
    (f : List TimelineElement → List TimelineElement)
    (h : findTrack st tid = some tr) :
    { tr with elements := f tr.elements } ∈ updateTrackElements st tid f := by
  have hmem := findTrack_mem h
  have hid : (tr.id == tid) = true := by simpa using findTrack_id h
  unfold updateTrackElements
  exact List.mem_map.mpr ⟨tr, hmem, by simp [hid]⟩

/-- Tracks with another id survive the update unchanged. -/
theorem updateTrackElements_other {st : TimelineState} {tid : Nat}
    (f : List TimelineElement → List TimelineElement) :
    ∀ t ∈ st.tracks, t.id ≠ tid → t ∈ updateTrackElements st tid f := by
  intro t ht hne
  have hid : (t.id == tid) = false := by simpa using hne
  unfold updateTrackElements
  exact List.mem_map.mpr ⟨t, ht, by simp [hid]⟩

/-- C1: for every element and every `atTime` strictly between its effective
start and effective end, `splitElement` returns the fresh id and, on the
same track, produces two elements that partition the original's effective
range with no gap or overlap: the left part keeps the original id and start,
ends exactly at `atTime` by an increased `trimEnd`; the right part starts at
`atTime` with `trimStart` increased by `atTime - effectiveStart` and ends at
the original effective end; both keep the original `mediaId` and
`duration`. -/
theorem splitElement_partitions
    (st : TimelineState) (trackId elementId : Nat) (atTime : ℚ)
    (tr : TimelineTrack) (el : TimelineElement)
    (hTr : findTrack st trackId = some tr)
    (hEl : findElement tr elementId = some el)
    (h1 : effectiveStart el < atTime) (h2 : atTime < effectiveEnd el) :
    (splitElement st trackId elementId atTime).2 = some st.nextId ∧
    ∃ tr' ∈ (splitElement st trackId elementId atTime).1.tracks, tr'.id = trackId ∧
    ∃ left ∈ tr'.elements, ∃ right ∈ tr'.elements,
      left.id = el.id ∧
      right.id = st.nextId ∧
      effectiveStart left = effectiveStart el ∧
      effectiveEnd left = atTime ∧
      left.trimEnd = el.trimEnd + (effectiveEnd el - atTime) ∧
      effectiveStart right = atTime ∧
      right.startTime = atTime ∧
      right.trimStart = el.trimStart + (atTime - effectiveStart el) ∧
      effectiveEnd right = effectiveEnd el ∧
      left.mediaId = el.mediaId ∧ right.mediaId = el.mediaId ∧
      left.duration = el.duration ∧ right.duration = el.duration := by
  have hcond : ¬(atTime ≤ effectiveStart el ∨ effectiveEnd el ≤ atTime) := by
    push_neg
    exact ⟨h1, h2⟩
  have heid : (el.id == elementId) = true := by simpa using findElement_id hEl
  simp only [splitElement, hTr, hEl, if_neg hcond]
  refine ⟨trivial, ?_⟩
  refine ⟨_, updateTrackElements_target _ hTr, by simpa using findTrack_id hTr, ?_⟩
  have hmem := findElement_mem hEl
  refine ⟨{ el with trimEnd := el.trimEnd + (effectiveEnd el - atTime) },
          List.mem_flatMap.mpr ⟨el, hmem, by simp [heid]⟩,
          { el with id := st.nextId, startTime := atTime,
                    trimStart := el.trimStart + (atTime - effectiveStart el) },
          List.mem_flatMap.mpr ⟨el, hmem, by simp [heid]⟩,
          rfl, rfl, rfl, ?_, rfl, rfl, rfl, rfl, ?_, rfl, rfl, rfl, rfl⟩
  · simp only [effectiveEnd, effectiveDuration, effectiveStart]
    ring
  · simp only [effectiveEnd, effectiveDuration, effectiveStart]
    ring

unseal Rat.add Rat.sub Rat.mul Rat.inv in
/-- Witness for C1: the spec's worked example, split at `t = 4`. -/
theorem splitElement_partitions_witness :
    (findTrack demoState 1 = some demoTrack ∧
     findElement demoTrack 0 = some demoElement ∧
     effectiveStart demoElement < 4 ∧ (4 : ℚ) < effectiveEnd demoElement) ∧
    ((splitElement demoState 1 0 4).2 = some demoState.nextId ∧
     ∃ tr' ∈ (splitElement demoState 1 0 4).1.tracks, tr'.id = 1 ∧
     ∃ left ∈ tr'.elements, ∃ right ∈ tr'.elements,
       left.id = demoElement.id ∧
       right.id = demoState.nextId ∧
       effectiveStart left = effectiveStart demoElement ∧
       effectiveEnd left = 4 ∧
       left.trimEnd = demoElement.trimEnd + (effectiveEnd demoElement - 4) ∧
       effectiveStart right = 4 ∧
       right.startTime = 4 ∧
       right.trimStart = demoElement.trimStart + (4 - effectiveStart demoElement) ∧
       effectiveEnd right = effectiveEnd demoElement ∧
       left.mediaId = demoElement.mediaId ∧ right.mediaId = demoElement.mediaId ∧
       left.duration = demoElement.duration ∧ right.duration = demoElement.duration) :=
  ⟨⟨by decide, by decide, by decide, by decide⟩,
   splitElement_partitions demoState 1 0 4 demoTrack demoElement
     (by decide) (by decide) (by decide) (by decide)⟩

/-- C4: for an existing element, a split time outside the open interval
`(effectiveStart, effectiveEnd)` leaves the whole state untouched and
yields no new element id, and the single-selection split handler reports
the "playhead must be within element" error. -/
theorem splitElement_out_of_bounds
    (st : TimelineState) (trackId elementId : Nat) (atTime : ℚ)
    (tr : TimelineTrack) (el : TimelineElement)
    (hTr : findTrack st trackId = some tr)
    (hEl : findElement tr elementId = some el)
    (h : atTime ≤ effectiveStart el ∨ effectiveEnd el ≤ atTime) :
    splitElement st trackId elementId atTime = (st, none) ∧
    handleSplitSelected st [(trackId, elementId)] atTime = (st, true) := by
  have hnot : ¬(effectiveStart el < atTime ∧ atTime < effectiveEnd el) := by
    rcases h with h | h
    · exact fun hc => absurd h (not_le.mpr hc.1)
    · exact fun hc => absurd h (not_le.mpr hc.2)
  constructor
  · simp only [splitElement, hTr, hEl, if_pos h]
  · simp only [handleSplitSelected, List.isEmpty_cons, List.foldl_cons, List.foldl_nil,
      hTr, hEl, if_neg hnot]
    rfl

unseal Rat.add Rat.sub Rat.mul Rat.inv in
/-- Witness for C4: splitting the demo element at `t = 12`, past its
effective end, changes nothing. -/
theorem splitElement_out_of_bounds_witness :
    (findTrack demoState 1 = some demoTrack ∧
     findElement demoTrack 0 = some demoElement ∧
     ((12 : ℚ) ≤ effectiveStart demoElement ∨ effectiveEnd demoElement ≤ 12)) ∧
    (splitElement demoState 1 0 12 = (demoState, none) ∧
     handleSplitSelected demoState [(1, 0)] 12 = (demoState, true)) :=
  ⟨⟨by decide, by decide, by decide⟩,
   splitElement_out_of_bounds demoState 1 0 12 demoTrack demoElement
     (by decide) (by decide) (by decide)⟩

/-- C2: ripple removal deletes the element and, on its own track, shifts
exactly the elements whose `startTime` is at least the removed element's
effective end backward by its effective duration, leaving every earlier
element and every other track byte-for-byte unchanged. -/
theorem rippleRemove_shifts
    (st : TimelineState) (trackId elementId : Nat)
    (tr : TimelineTrack) (el : TimelineElement)
    (hTr : findTrack st trackId = some tr)
    (hEl : findElement tr elementId = some el) :
    (∀ t ∈ st.tracks, t.id ≠ trackId →
       t ∈ (removeElementFromTrackWithRipple st trackId elementId).tracks) ∧
    ∃ tr' ∈ (removeElementFromTrackWithRipple st trackId elementId).tracks,
      tr'.id = trackId ∧
      tr'.elements = (tr.elements.filter (fun e => !(e.id == elementId))).map
        (fun e => if effectiveEnd el ≤ e.startTime then
            { e with startTime := e.startTime - effectiveDuration el } else e) ∧
      (∀ e ∈ tr.elements, e.id ≠ elementId → effectiveEnd el ≤ e.startTime →
         { e with startTime := e.startTime - effectiveDuration el } ∈ tr'.elements) ∧
      (∀ e ∈ tr.elements, e.id ≠ elementId → e.startTime < effectiveEnd el →
         e ∈ tr'.elements) ∧
      (∀ e ∈ tr'.elements, e.id ≠ elementId) := by
  simp only [removeElementFromTrackWithRipple, hTr, hEl]
  refine ⟨fun t ht hne => updateTrackElements_other _ t ht hne, ?_⟩
  refine ⟨_, updateTrackElements_target _ hTr, by simpa using findTrack_id hTr, rfl, ?_, ?_, ?_⟩
  · intro e he hne hge
    have hid : (e.id == elementId) = false := by simpa using hne
    have hf : e ∈ tr.elements.filter (fun e => !(e.id == elementId)) :=
      List.mem_filter.mpr ⟨he, by simp [hid]⟩
    have := List.mem_map_of_mem (fun e => if effectiveEnd el ≤ e.startTime then
        { e with startTime := e.startTime - effectiveDuration el } else e) hf
    simpa [if_pos hge] using this
  · intro e he hne hlt
    have hid : (e.id == elementId) = false := by simpa using hne
    have hf : e ∈ tr.elements.filter (fun e => !(e.id == elementId)) :=
      List.mem_filter.mpr ⟨he, by simp [hid]⟩
    have := List.mem_map_of_mem (fun e => if effectiveEnd el ≤ e.startTime then
        { e with startTime := e.startTime - effectiveDuration el } else e) hf
    simpa [if_neg (not_le.mpr hlt)] using this
  · intro e he
    rcases List.mem_map.mp he with ⟨a, ha, rfl⟩
    have := (List.mem_filter.mp ha).2
    have hane : a.id ≠ elementId := by simpa using this
    split
    · simpa using hane
    · simpa using hane

unseal Rat.add Rat.sub Rat.mul Rat.inv in
/-- Witness for C2: the spec's example — A at 0–5 and B at 5–10;
ripple-removing A shifts B back by 5. -/
theorem rippleRemove_shifts_witness :
    (findTrack rippleDemoState 1 = some rippleDemoTrack ∧
     findElement rippleDemoTrack 0 = some rippleDemoA) ∧
    ((∀ t ∈ rippleDemoState.tracks, t.id ≠ 1 →
        t ∈ (removeElementFromTrackWithRipple rippleDemoState 1 0).tracks) ∧
     ∃ tr' ∈ (removeElementFromTrackWithRipple rippleDemoState 1 0).tracks,
       tr'.id = 1 ∧
       tr'.elements = (rippleDemoTrack.elements.filter (fun e => !(e.id == 0))).map
         (fun e => if effectiveEnd rippleDemoA ≤ e.startTime then
             { e with startTime := e.startTime - effectiveDuration rippleDemoA } else e) ∧
       (∀ e ∈ rippleDemoTrack.elements, e.id ≠ 0 → effectiveEnd rippleDemoA ≤ e.startTime →
          { e with startTime := e.startTime - effectiveDuration rippleDemoA } ∈ tr'.elements) ∧
       (∀ e ∈ rippleDemoTrack.elements, e.id ≠ 0 → e.startTime < effectiveEnd rippleDemoA →
          e ∈ tr'.elements) ∧
       (∀ e ∈ tr'.elements, e.id ≠ 0)) :=
  ⟨⟨by decide, by decide⟩,
   rippleRemove_shifts rippleDemoState 1 0 rippleDemoTrack rippleDemoA
     (by decide) (by decide)⟩

/-- C6: duplicating a single selected element appends, on the same track, a
new element with a fresh id and identical `duration`, `trimStart`,
`trimEnd` and `mediaId`, placed at the original's effective end plus 0.1
seconds; a selection of two or more elements makes the command a no-op. -/
theorem duplicate_single
    (st : TimelineState) (trackId elementId : Nat)
    (tr : TimelineTrack) (el : TimelineElement)
    (hTr : findTrack st trackId = some tr)
    (hEl : findElement tr elementId = some el)
    (hwf : wfElement el)
    (hfresh : ∀ t ∈ st.tracks, ∀ e ∈ t.elements, e.id < st.nextId) :
    (∀ t ∈ st.tracks, t.id ≠ trackId →
       t ∈ (handleDuplicateSelected st [(trackId, elementId)]).tracks) ∧
    (∃ tr' ∈ (handleDuplicateSelected st [(trackId, elementId)]).tracks,
      tr'.id = trackId ∧
      ∃ newEl,
        tr'.elements = tr.elements ++ [newEl] ∧
        newEl.id = st.nextId ∧
        (∀ t ∈ st.tracks, ∀ e ∈ t.elements, e.id ≠ newEl.id) ∧
        newEl.duration = el.duration ∧
        newEl.trimStart = el.trimStart ∧
        newEl.trimEnd = el.trimEnd ∧
        newEl.mediaId = el.mediaId ∧
        newEl.startTime = effectiveEnd el + 1/10) ∧
    (∀ selected : List (Nat × Nat), 2 ≤ selected.length →
       handleDuplicateSelected st selected = st) := by
  have hvalid : (ElementSpec.valid
      { elementSpecOf el with
          startTime := el.startTime + (el.duration - el.trimStart - el.trimEnd) + 1/10 }) =
      true := by
    simp only [ElementSpec.valid, elementSpecOf, Bool.and_eq_true, decide_eq_true_iff]
    exact ⟨⟨hwf.1, hwf.2.1⟩, hwf.2.2⟩
  have hred : handleDuplicateSelected st [(trackId, elementId)] =
      { tracks := updateTrackElements st trackId (fun els =>
          els ++ [ElementSpec.toElement
            { elementSpecOf el with
                startTime := el.startTime + (el.duration - el.trimStart - el.trimEnd) + 1/10 }
            st.nextId])
        nextId := st.nextId + 1 } := by
    simp only [handleDuplicateSelected, List.isEmpty_cons, List.length_cons,
      List.length_nil, List.foldl_cons, List.foldl_nil, hTr, hEl,
      addElementToTrack, hvalid]
    simp [hTr]
  refine ⟨?_, ?_, ?_⟩
  · intro t ht hne
    rw [hred]
    dsimp only
    exact updateTrackElements_other _ t ht hne
  · rw [hred]
    dsimp only
    refine ⟨_, updateTrackElements_target _ hTr, by simpa using findTrack_id hTr, ?_⟩
    refine ⟨_, rfl, rfl, ?_, rfl, rfl, rfl, rfl, ?_⟩
    · intro t ht e he
      exact Nat.ne_of_lt (hfresh t ht e he)
    · simp only [ElementSpec.toElement, elementSpecOf, effectiveEnd, effectiveDuration]
  · intro selected hlen
    match selected, hlen with
    | a :: b :: rest, _ =>
      simp [handleDuplicateSelected]

unseal Rat.add Rat.sub Rat.mul Rat.inv in
/-- Witness for C6: duplicating the demo element appends a copy at time
10.1 and a two-element selection is a no-op. -/
theorem duplicate_single_witness :
    (findTrack demoState 1 = some demoTrack ∧
     findElement demoTrack 0 = some demoElement ∧
     wfElement demoElement ∧
     (∀ t ∈ demoState.tracks, ∀ e ∈ t.elements, e.id < demoState.nextId)) ∧
    ((∀ t ∈ demoState.tracks, t.id ≠ 1 →
        t ∈ (handleDuplicateSelected demoState [(1, 0)]).tracks) ∧
     (∃ tr' ∈ (handleDuplicateSelected demoState [(1, 0)]).tracks,
       tr'.id = 1 ∧
       ∃ newEl,
         tr'.elements = demoTrack.elements ++ [newEl] ∧
         newEl.id = demoState.nextId ∧
         (∀ t ∈ demoState.tracks, ∀ e ∈ t.elements, e.id ≠ newEl.id) ∧
         newEl.duration = demoElement.duration ∧
         newEl.trimStart = demoElement.trimStart ∧
         newEl.trimEnd = demoElement.trimEnd ∧
         newEl.mediaId = demoElement.mediaId ∧
         newEl.startTime = effectiveEnd demoElement + 1/10) ∧
     (∀ selected : List (Nat × Nat), 2 ≤ selected.length →
        handleDuplicateSelected demoState selected = demoState)) :=
  ⟨⟨by decide, by decide, by decide, by decide⟩,
   duplicate_single demoState 1 0 demoTrack demoElement
     (by decide) (by decide) (by decide) (by decide)⟩

/-- C7: separating audio succeeds exactly for an existing element on a
`media`-type track, appending a new `audio`-type track whose single element
copies the original's `startTime`, `trimStart` and `trimEnd` and references
the same source; a missing track, a missing element, a non-media track or a
selection that is not a single element leaves the state unchanged. -/
theorem separateAudio_media_only
    (st : TimelineState) (trackId elementId : Nat)
    (tr : TimelineTrack) (el : TimelineElement)
    (hTr : findTrack st trackId = some tr)
    (hty : tr.type = TrackType.mediaTrack)
    (hEl : findElement tr elementId = some el) :
    (∃ newTrack newEl,
       (handleSeparateAudio st [(trackId, elementId)]).tracks = st.tracks ++ [newTrack] ∧
       newTrack.type = TrackType.audioTrack ∧
       newTrack.elements = [newEl] ∧
       newEl.startTime = el.startTime ∧
       newEl.trimStart = el.trimStart ∧
       newEl.trimEnd = el.trimEnd ∧
       newEl.mediaId = el.mediaId) ∧
    (∀ tid eid, findTrack st tid = none → handleSeparateAudio st [(tid, eid)] = st) ∧
    (∀ tid eid tr0, findTrack st tid = some tr0 → tr0.type ≠ TrackType.mediaTrack →
       handleSeparateAudio st [(tid, eid)] = st) ∧
    (∀ tid eid tr0, findTrack st tid = some tr0 → tr0.type = TrackType.mediaTrack →
       findElement tr0 eid = none → handleSeparateAudio st [(tid, eid)] = st) ∧
    (∀ selected : List (Nat × Nat), selected.length ≠ 1 →
       handleSeparateAudio st selected = st) := by
  have htyb : ¬tr.type ≠ TrackType.mediaTrack := by simp [hty]
  refine ⟨?_, ?_, ?_, ?_, ?_⟩
  · simp only [handleSeparateAudio, hTr, if_neg htyb, separateAudio, hEl]
    exact ⟨_, _, rfl, rfl, rfl, rfl, rfl, rfl, rfl⟩
  · intro tid eid h
    simp [handleSeparateAudio, h]
  · intro tid eid tr0 h hne
    simp [handleSeparateAudio, h, hne]
  · intro tid eid tr0 h hty0 hnone
    have : ¬tr0.type ≠ TrackType.mediaTrack := by simp [hty0]
    simp [handleSeparateAudio, h, this, separateAudio, hnone]
  · intro selected hlen
    match selected, hlen with
    | [], _ => rfl
    | [a], h => exact absurd rfl h
    | a :: b :: rest, _ => rfl

unseal Rat.add Rat.sub Rat.mul Rat.inv in
/-- Witness for C7: separating audio from the demo media element appends an
audio track copying its bounds. -/
theorem separateAudio_media_only_witness :
    (findTrack demoState 1 = some demoTrack ∧
     demoTrack.type = TrackType.mediaTrack ∧
     findElement demoTrack 0 = some demoElement) ∧
    ((∃ newTrack newEl,
        (handleSeparateAudio demoState [(1, 0)]).tracks = demoState.tracks ++ [newTrack] ∧
        newTrack.type = TrackType.audioTrack ∧
        newTrack.elements = [newEl] ∧
        newEl.startTime = demoElement.startTime ∧
        newEl.trimStart = demoElement.trimStart ∧
        newEl.trimEnd = demoElement.trimEnd ∧
        newEl.mediaId = demoElement.mediaId) ∧
     (∀ tid eid, findTrack demoState tid = none →
        handleSeparateAudio demoState [(tid, eid)] = demoState) ∧
     (∀ tid eid tr0, findTrack demoState tid = some tr0 →
        tr0.type ≠ TrackType.mediaTrack →
        handleSeparateAudio demoState [(tid, eid)] = demoState) ∧
     (∀ tid eid tr0, findTrack demoState tid = some tr0 →
        tr0.type = TrackType.mediaTrack → findElement tr0 eid = none →
        handleSeparateAudio demoState [(tid, eid)] = demoState) ∧
     (∀ selected : List (Nat × Nat), selected.length ≠ 1 →
        handleSeparateAudio demoState selected = demoState)) :=
  ⟨⟨by decide, by decide, by decide⟩,
   separateAudio_media_only demoState 1 0 demoTrack demoElement
     (by decide) (by decide) (by decide)⟩

/-- A fold of `max` over effective ends dominates each member. -/
theorem le_foldr_max_effectiveEnd {l : List TimelineElement} {e : TimelineElement}
    (h : e ∈ l) :
    effectiveEnd e ≤ l.foldr (fun e acc => max (effectiveEnd e) acc) 0 := by
  induction l with
  | nil => cases h
  | cons a l ih =>
    rcases List.mem_cons.mp h with rfl | h
    · exact le_max_left _ _
    · exact le_trans (ih h) (le_max_right _ _)

/-- A fold of `max` over effective ends starting at 0 is non-negative. -/
theorem foldr_max_effectiveEnd_nonneg (l : List TimelineElement) :
    0 ≤ l.foldr (fun e acc => max (effectiveEnd e) acc) 0 := by
  induction l with
  | nil => exact le_refl 0
  | cons a l ih => exact le_trans ih (le_max_right _ _)

/-- A track's extent dominates each of its elements' effective ends. -/
theorem effectiveEnd_le_trackExtent {tr : TimelineTrack} {e : TimelineElement}
    (h : e ∈ tr.elements) : effectiveEnd e ≤ trackExtent tr :=
  le_foldr_max_effectiveEnd h

/-- A track's extent is non-negative. -/
theorem trackExtent_nonneg (tr : TimelineTrack) : 0 ≤ trackExtent tr :=
  foldr_max_effectiveEnd_nonneg tr.elements

/-- C5: whenever the track list changes the stored playback duration is
`max(total duration, 10)`: it is exactly 10 for an empty track list, and at
least `t` whenever some element's effective end reaches a time `t`
beyond 10. -/
theorem recomputeDuration_floor
    (tracks : List TimelineTrack) (t : ℚ) (hgt : 10 < t)
    (hel : ∃ tr ∈ tracks, ∃ e ∈ tr.elements, effectiveEnd e = t) :
    recomputeDuration [] = 10 ∧ t ≤ recomputeDuration tracks := by
  constructor
  · simp [recomputeDuration, getTotalDuration]
  · rcases hel with ⟨tr, htr, e, he, rfl⟩
    have h1 : effectiveEnd e ≤ trackExtent tr := effectiveEnd_le_trackExtent he
    have h2 : trackExtent tr ≤ getTotalDuration tracks := by
      unfold getTotalDuration
      exact List.single_le_sum (by
          intro x hx
          rcases List.mem_map.mp hx with ⟨tr0, _, rfl⟩
          exact trackExtent_nonneg tr0) _
        (List.mem_map_of_mem trackExtent htr)
    exact le_trans (le_trans h1 h2) (le_max_left _ _)

unseal Rat.add Rat.sub Rat.mul Rat.inv in
/-- Witness for C5: a single element whose effective end is 12.3 forces a
stored duration of at least 12.3 (and the empty timeline floors at 10). -/
theorem recomputeDuration_floor_witness :
    ((10 : ℚ) < 123/10 ∧
     ∃ tr ∈ [durationDemoTrack], ∃ e ∈ tr.elements, effectiveEnd e = 123/10) ∧
    (recomputeDuration [] = 10 ∧ (123/10 : ℚ) ≤ recomputeDuration [durationDemoTrack]) :=
  ⟨⟨by decide, ⟨durationDemoTrack, by decide, durationDemoElement, by decide, by decide⟩⟩,
   recomputeDuration_floor [durationDemoTrack] (123/10) (by decide)
     ⟨durationDemoTrack, by decide, durationDemoElement, by decide, by decide⟩⟩

unseal Rat.add Rat.sub Rat.mul Rat.inv in
/-- Counterexample to C8 as stated: with a recorded background
pointer-down, no selection activity and zero elapsed time, a pointer
movement of exactly 5px — not *less than* the 5px threshold — still
reaches `seek`, because the source aborts only on `deltaX > 5`. -/
theorem performsSeek_at_threshold :
    performsSeek { isMouseDown := true, downX := 0, downY := 0, downTime := 0 }
      false false
      { clientX := 5, clientY := 0, timeStamp := 0,
        target := { onTimelineElement := false, onPlayhead := false,
                    onTrackLabels := false } } = true ∧
    ¬(abs ((5 : ℚ) - 0) < 5) := by
  constructor
  · decide
  · decide

/-- C8 (amended): a pointer-up is classified as a genuine click — reaching
`seek` — only if a pointer-down was recorded on timeline background, no
selection-box drag occurred, the pointer moved *at most* 5px in each axis,
and at most 500ms elapsed since pointer-down (the source's thresholds are
inclusive: it aborts on strictly more than 5px or 500ms). -/
theorem performsSeek_only_if
    (tracking : MouseTracking) (isSelecting justFinishedSelecting : Bool)
    (e : ClickEvent)
    (h : performsSeek tracking isSelecting justFinishedSelecting e = true) :
    tracking.isMouseDown = true ∧
    abs (e.clientX - tracking.downX) ≤ 5 ∧
    abs (e.clientY - tracking.downY) ≤ 5 ∧
    e.timeStamp - tracking.downTime ≤ 500 ∧
    isSelecting = false ∧ justFinishedSelecting = false ∧
    isTimelineBackground e.target = true := by
  unfold performsSeek at h
  dsimp only at h
  split_ifs at h with h1 h2 h3 h4 h5 h6
  rw [not_or, not_or] at h2
  obtain ⟨h2a, h2b, h2c⟩ := h2
  rw [not_lt] at h2a h2b h2c
  have hsel : isSelecting = false ∧ justFinishedSelecting = false := by
    constructor
    · cases hs : isSelecting
      · rfl
      · exact absurd (by simp [hs]) h3
    · cases hs : justFinishedSelecting
      · rfl
      · exact absurd (by simp [hs]) h3
  refine ⟨?_, h2a, h2b, h2c, hsel.1, hsel.2, ?_⟩
  · cases hm : tracking.isMouseDown
    · rw [hm] at h1
      exact absurd rfl h1
    · rfl
  · have he4 : e.target.onTimelineElement = false := by
      cases hv : e.target.onTimelineElement
      · rfl
      · exact absurd hv h4
    have he5 : e.target.onPlayhead = false := by
      cases hv : e.target.onPlayhead
      · rfl
      · exact absurd hv h5
    have he6 : e.target.onTrackLabels = false := by
      cases hv : e.target.onTrackLabels
      · rfl
      · exact absurd hv h6
    simp [isTimelineBackground, he4, he5, he6]

unseal Rat.add Rat.sub Rat.mul Rat.inv in
/-- Witness for C8 (amended): a 3px / 100ms pointer-up on background
reaches `seek` and satisfies every necessary condition. -/
theorem performsSeek_only_if_witness :
    (performsSeek { isMouseDown := true, downX := 0, downY := 0, downTime := 0 }
       false false
       { clientX := 3, clientY := 0, timeStamp := 100,
         target := { onTimelineElement := false, onPlayhead := false,
                     onTrackLabels := false } } = true) ∧
    ((true : Bool) = true ∧
     abs ((3 : ℚ) - 0) ≤ 5 ∧
     abs ((0 : ℚ) - 0) ≤ 5 ∧
     (100 : ℚ) - 0 ≤ 500 ∧
     (false : Bool) = false ∧ (false : Bool) = false ∧
     isTimelineBackground
       { onTimelineElement := false, onPlayhead := false, onTrackLabels := false } = true) :=
  ⟨by decide,
   performsSeek_only_if { isMouseDown := true, downX := 0, downY := 0, downTime := 0 }
     false false
     { clientX := 3, clientY := 0, timeStamp := 100,
       target := { onTimelineElement := false, onPlayhead := false,
                   onTrackLabels := false } }
     (by decide)⟩

/-- Counterexample to C10 as stated: with duration 10.02s (not
frame-aligned) and fps 30, a click at the far right clamps to 10.02 but
then snaps UP to frame 301, i.e. 301/30 ≈ 10.033s — so `seek` does receive
a time exceeding the duration. -/
theorem clickSeekTime_exceeds_duration :
    clickSeekTime (501/50) 50 1 1000 0 (some 30) = 301/30 ∧
    (501/50 : ℚ) < 301/30 := by
  constructor
  · have h30 : resolveFps (some 30) = 30 := by decide
    unfold clickSeekTime snapTimeToFrame
    rw [h30]
    dsimp only
    norm_num
    rw [round_eq]
    norm_num
  · norm_num

/-- C10 (amended): the time handed to `seek` from a background click is the
clamp of the pixel time to `[0, duration]` followed by frame snapping; it
is never negative, and exceeds the duration by at most half a frame period
`1/(2·fps)` (it can exceed the duration itself when the duration is not
frame-aligned). -/
theorem clickSeekTime_bounds
    (duration pixelsPerSecond zoomLevel mouseX scrollLeft : ℚ) (fps : Option ℚ)
    (hd : 0 ≤ duration) (hf : 0 < resolveFps fps) :
    0 ≤ clickSeekTime duration pixelsPerSecond zoomLevel mouseX scrollLeft fps ∧
    clickSeekTime duration pixelsPerSecond zoomLevel mouseX scrollLeft fps ≤
      duration + 1 / (2 * resolveFps fps) := by
  have hraw0 : (0 : ℚ) ≤
      max 0 (min duration ((mouseX + scrollLeft) / (pixelsPerSecond * zoomLevel))) :=
    le_max_left _ _
  have hrawd :
      max 0 (min duration ((mouseX + scrollLeft) / (pixelsPerSecond * zoomLevel))) ≤
        duration :=
    max_le hd (min_le_left _ _)
  unfold clickSeekTime snapTimeToFrame
  dsimp only
  set f := resolveFps fps with hfdef
  set raw := max 0 (min duration ((mouseX + scrollLeft) / (pixelsPerSecond * zoomLevel)))
    with hrdef
  constructor
  · apply div_nonneg _ hf.le
    rw [round_eq]
    have hnn : (0 : ℚ) ≤ raw * f + 1/2 := by
      have := mul_nonneg hraw0 hf.le
      linarith
    exact_mod_cast Int.floor_nonneg.mpr hnn
  · rw [round_eq]
    have hfl : ((⌊raw * f + 1/2⌋ : ℤ) : ℚ) ≤ raw * f + 1/2 := Int.floor_le _
    have hmul : raw * f ≤ duration * f := mul_le_mul_of_nonneg_right hrawd hf.le
    have hstep : ((⌊raw * f + 1/2⌋ : ℤ) : ℚ) / f ≤ (duration * f + 1/2) / f :=
      (div_le_div_iff_of_pos_right hf).mpr (by linarith)
    calc ((⌊raw * f + 1/2⌋ : ℤ) : ℚ) / f ≤ (duration * f + 1/2) / f := hstep
      _ = duration + 1 / (2 * f) := by
          field_simp
          ring

unseal Rat.add Rat.sub Rat.mul Rat.inv in
/-- Witness for C10 (amended): a click on a 10-second timeline with the
default 30fps yields a seek time in `[0, 10 + 1/60]`. -/
theorem clickSeekTime_bounds_witness :
    ((0 : ℚ) ≤ 10 ∧ 0 < resolveFps none) ∧
    (0 ≤ clickSeekTime 10 50 1 100 0 none ∧
     clickSeekTime 10 50 1 100 0 none ≤ 10 + 1 / (2 * resolveFps none)) :=
  ⟨⟨by decide, by decide⟩,
   clickSeekTime_bounds 10 50 1 100 0 none (by decide) (by decide)⟩

/-! ### Preservation of the trim invariant by each engine command -/

/-- Rewriting one track's elements preserves the state invariant whenever
the rewrite function preserves elementwise well-formedness. -/
theorem wfState_updateTrackElements {st : TimelineState} {tid : Nat}
    {f : List TimelineElement → List TimelineElement} {n : Nat}
    (h : wfState st)
    (hf : ∀ tr ∈ st.tracks, (∀ e ∈ tr.elements, wfElement e) →
            ∀ e2 ∈ f tr.elements, wfElement e2) :
    wfState { tracks := updateTrackElements st tid f, nextId := n } := by
  intro t ht e he
  rcases List.mem_map.mp ht with ⟨t0, ht0, heq⟩
  by_cases hc : (t0.id == tid) = true
  · rw [if_pos hc] at heq
    subst heq
    exact hf t0 ht0 (h t0 ht0) e he
  · rw [if_neg hc] at heq
    subst heq
    exact h t0 ht0 e he

theorem wf_addElementToTrack {st : TimelineState} (tid : Nat) (s : ElementSpec)
    (h : wfState st) : wfState (addElementToTrack st tid s) := by
  unfold addElementToTrack
  cases hTr : findTrack st tid with
  | none => exact h
  | some tr =>
    by_cases hv : s.valid = true
    · rw [if_pos hv]
      apply wfState_updateTrackElements h
      intro tr0 htr0 hwf e2 he2
      rcases List.mem_append.mp he2 with h0 | h0
      · exact hwf e2 h0
      · have : e2 = s.toElement st.nextId := by simpa using h0
        subst this
        simp only [ElementSpec.valid, Bool.and_eq_true, decide_eq_true_eq] at hv
        exact ⟨hv.1.1, hv.1.2, hv.2⟩
    · rw [if_neg hv]
      exact h

theorem wf_removeElementFromTrack {st : TimelineState} (tid eid : Nat)
    (h : wfState st) : wfState (removeElementFromTrack st tid eid) := by
  apply wfState_updateTrackElements h
  intro tr0 htr0 hwf e2 he2
  exact hwf e2 (List.mem_of_mem_filter he2)

theorem wf_rippleRemove {st : TimelineState} (tid eid : Nat)
    (h : wfState st) : wfState (removeElementFromTrackWithRipple st tid eid) := by
  unfold removeElementFromTrackWithRipple
  cases hTr : findTrack st tid with
  | none => exact h
  | some tr =>
    dsimp only
    cases hEl : findElement tr eid with
    | none => exact h
    | some el =>
      dsimp only
      apply wfState_updateTrackElements h
      intro tr0 htr0 hwf e2 he2
      rcases List.mem_map.mp he2 with ⟨a, ha, heq⟩
      have hwa : wfElement a := hwf a (List.mem_of_mem_filter ha)
      subst heq
      split
      · exact hwa
      · exact hwa

/-- The left part of a strictly interior split keeps the trim invariant. -/
theorem wf_left_part {el : TimelineElement} {atTime : ℚ} (hwf : wfElement el)
    (h1 : effectiveStart el < atTime) (h2 : atTime < effectiveEnd el) :
    wfElement { el with trimEnd := el.trimEnd + (effectiveEnd el - atTime) } := by
  obtain ⟨ha, hb, hc⟩ := hwf
  simp only [effectiveEnd, effectiveDuration, effectiveStart] at h1 h2
  exact ⟨ha, by simp only [effectiveEnd, effectiveDuration]; linarith,
         by simp only [effectiveEnd, effectiveDuration]; linarith⟩

/-- The right part of a strictly interior split keeps the trim invariant. -/
theorem wf_right_part (n : Nat) {el : TimelineElement} {atTime : ℚ} (hwf : wfElement el)
    (h1 : effectiveStart el < atTime) (h2 : atTime < effectiveEnd el) :
    wfElement { el with id := n, startTime := atTime,
                        trimStart := el.trimStart + (atTime - effectiveStart el) } := by
  obtain ⟨ha, hb, hc⟩ := hwf
  simp only [effectiveEnd, effectiveDuration, effectiveStart] at h1 h2
  exact ⟨by simp only [effectiveStart]; linarith, hb,
         by simp only [effectiveStart]; linarith⟩

theorem wf_splitElement {st : TimelineState} (tid eid : Nat) (t : ℚ)
    (h : wfState st) : wfState (splitElement st tid eid t).1 := by
  unfold splitElement
  cases hTr : findTrack st tid with
  | none => exact h
  | some tr =>
    dsimp only
    cases hEl : findElement tr eid with
    | none => exact h
    | some el =>
      dsimp only
      by_cases hc : t ≤ effectiveStart el ∨ effectiveEnd el ≤ t
      · rw [if_pos hc]
        exact h
      · rw [if_neg hc]
        dsimp only
        have hwfel : wfElement el := h tr (findTrack_mem hTr) el (findElement_mem hEl)
        rw [not_or, not_le, not_le] at hc
        apply wfState_updateTrackElements h
        intro tr0 htr0 hwf0 e2 he2
        rcases List.mem_flatMap.mp he2 with ⟨a, ha, hae⟩
        by_cases hid : (a.id == eid) = true
        · rw [if_pos hid] at hae
          rcases List.mem_cons.mp hae with rfl | hae2
          · exact wf_left_part hwfel hc.1 hc.2
          · rcases List.mem_cons.mp hae2 with rfl | h0
            · exact wf_right_part _ hwfel hc.1 hc.2
            · cases h0
        · rw [if_neg hid] at hae
          have heq : e2 = a := by simpa using hae
          subst heq
          exact hwf0 _ ha

theorem wf_splitAndKeepLeft {st : TimelineState} (tid eid : Nat) (t : ℚ)
    (h : wfState st) : wfState (splitAndKeepLeft st tid eid t) := by
  unfold splitAndKeepLeft
  cases hTr : findTrack st tid with
  | none => exact h
  | some tr =>
    dsimp only
    cases hEl : findElement tr eid with
    | none => exact h
    | some el =>
      dsimp only
      by_cases hc : t ≤ effectiveStart el ∨ effectiveEnd el ≤ t
      · rw [if_pos hc]
        exact h
      · rw [if_neg hc]
        have hwfel : wfElement el := h tr (findTrack_mem hTr) el (findElement_mem hEl)
        rw [not_or, not_le, not_le] at hc
        apply wfState_updateTrackElements h
        intro tr0 htr0 hwf0 e2 he2
        rcases List.mem_map.mp he2 with ⟨a, ha, heq⟩
        subst heq
        split
        · exact wf_left_part hwfel hc.1 hc.2
        · exact hwf0 a ha

theorem wf_splitAndKeepRight {st : TimelineState} (tid eid : Nat) (t : ℚ)
    (h : wfState st) : wfState (splitAndKeepRight st tid eid t) := by
  unfold splitAndKeepRight
  cases hTr : findTrack st tid with
  | none => exact h
  | some tr =>
    dsimp only
    cases hEl : findElement tr eid with
    | none => exact h
    | some el =>
      dsimp only
      by_cases hc : t ≤ effectiveStart el ∨ effectiveEnd el ≤ t
      · rw [if_pos hc]
        exact h
      · rw [if_neg hc]
        have hwfel : wfElement el := h tr (findTrack_mem hTr) el (findElement_mem hEl)
        rw [not_or, not_le, not_le] at hc
        apply wfState_updateTrackElements h
        intro tr0 htr0 hwf0 e2 he2
        rcases List.mem_map.mp he2 with ⟨a, ha, heq⟩
        subst heq
        split
        · have := wf_right_part el.id hwfel hc.1 hc.2
          exact this
        · exact hwf0 a ha

theorem wf_separateAudio {st : TimelineState} (tid eid : Nat)
    (h : wfState st) : wfState (separateAudio st tid eid) := by
  unfold separateAudio
  cases hTr : findTrack st tid with
  | none => exact h
  | some tr =>
    dsimp only
    by_cases hty : tr.type ≠ TrackType.mediaTrack
    · rw [if_pos hty]
      exact h
    · rw [if_neg hty]
      cases hEl : findElement tr eid with
      | none => exact h
      | some el =>
        dsimp only
        have hwfel : wfElement el := h tr (findTrack_mem hTr) el (findElement_mem hEl)
        intro t2 ht2 e2 he2
        rcases List.mem_append.mp ht2 with h0 | h0
        · exact h t2 h0 e2 he2
        · have ht2eq : t2 =
              { id := st.nextId, type := TrackType.audioTrack,
                elements := [{ id := st.nextId + 1, mediaId := el.mediaId, name := el.name,
                               startTime := el.startTime, duration := el.duration,
                               trimStart := el.trimStart, trimEnd := el.trimEnd }],
                muted := false } := by
            simpa using h0
          subst ht2eq
          have he2eq : e2 =
              { id := st.nextId + 1, mediaId := el.mediaId, name := el.name,
                startTime := el.startTime, duration := el.duration,
                trimStart := el.trimStart, trimEnd := el.trimEnd } := by
            simpa using he2
          subst he2eq
          exact ⟨hwfel.1, hwfel.2.1, hwfel.2.2⟩

/-- Folding an invariant-preserving step preserves the invariant. -/
theorem wf_foldl_of_step {α : Type} (step : TimelineState → α → TimelineState)
    (hstep : ∀ s a, wfState s → wfState (step s a)) :
    ∀ (l : List α) (s : TimelineState), wfState s → wfState (l.foldl step s) := by
  intro l
  induction l with
  | nil => exact fun s hs => hs
  | cons a t ih => exact fun s hs => ih _ (hstep s a hs)

theorem wf_handleDuplicateSelected {st : TimelineState} (selected : List (Nat × Nat))
    (h : wfState st) : wfState (handleDuplicateSelected st selected) := by
  unfold handleDuplicateSelected
  by_cases h0 : selected.isEmpty = true
  · rw [if_pos h0]
    exact h
  · rw [if_neg h0]
    by_cases h1 : selected.length ≠ 1
    · rw [if_pos h1]
      exact h
    · rw [if_neg h1]
      apply wf_foldl_of_step _ ?_ selected st h
      intro s a hs
      cases findTrack st a.1 with
      | none => exact hs
      | some tr =>
        dsimp only
        cases findElement tr a.2 with
        | none => exact hs
        | some el => exact wf_addElementToTrack _ _ hs

theorem wf_moveElement {st : TimelineState} (tid eid : Nat) (x : ℚ)
    (h : wfState st) : wfState (moveElement st tid eid x) := by
  apply wfState_updateTrackElements h
  intro tr0 htr0 hwf0 e2 he2
  rcases List.mem_map.mp he2 with ⟨a, ha, heq⟩
  subst heq
  have hwa := hwf0 a ha
  split
  · exact hwa
  · exact hwa

theorem wf_updateElementTrim {st : TimelineState} (tid eid : Nat) (a b : ℚ)
    (h : wfState st) : wfState (updateElementTrim st tid eid a b) := by
  apply wfState_updateTrackElements h
  intro tr0 htr0 hwf0 e2 he2
  rcases List.mem_map.mp he2 with ⟨e, he, heq⟩
  subst heq
  have hwe := hwf0 e he
  split
  · split
    · rename_i hcond
      exact ⟨hcond.1, hcond.2.1, hcond.2.2⟩
    · exact hwe
  · exact hwe

theorem wf_addTrack {st : TimelineState} (ty : TrackType)
    (h : wfState st) : wfState (addTrack st ty).1 := by
  intro t2 ht2 e2 he2
  rcases List.mem_append.mp ht2 with h0 | h0
  · exact h t2 h0 e2 he2
  · have : t2 = { id := st.nextId, type := ty, elements := [], muted := false } := by
      simpa using h0
    subst this
    cases he2

theorem wf_removeTrack {st : TimelineState} (tid : Nat)
    (h : wfState st) : wfState (removeTrack st tid) := by
  intro t2 ht2 e2 he2
  exact h t2 (List.mem_of_mem_filter ht2) e2 he2

/-- C3: the trim invariant `0 ≤ trimStart`, `0 ≤ trimEnd`,
`trimStart + trimEnd ≤ duration` holds for every element of every track
after every engine command — add, remove, ripple-remove, split,
split-keep-left, split-keep-right, audio separation, duplicate, move, trim,
track creation and track removal — given it held before; operations that
would break it are rejected (validation) or do not touch the trims. -/
theorem applyOp_preserves_trim_invariant (st : TimelineState) (op : TimelineOp)
    (h : wfState st) : wfState (applyOp st op) := by
  cases op with
  | addElement tid s => exact wf_addElementToTrack tid s h
  | removeElement tid eid => exact wf_removeElementFromTrack tid eid h
  | rippleRemove tid eid => exact wf_rippleRemove tid eid h
  | splitAt tid eid t => exact wf_splitElement tid eid t h
  | keepLeft tid eid t => exact wf_splitAndKeepLeft tid eid t h
  | keepRight tid eid t => exact wf_splitAndKeepRight tid eid t h
  | separate tid eid => exact wf_separateAudio tid eid h
  | duplicate sel => exact wf_handleDuplicateSelected sel h
  | move tid eid x => exact wf_moveElement tid eid x h
  | trim tid eid a b => exact wf_updateElementTrim tid eid a b h
  | newTrack ty => exact wf_addTrack ty h
  | dropTrack tid => exact wf_removeTrack tid h

unseal Rat.add Rat.sub Rat.mul Rat.inv in
/-- Witness for C3: the demo state is well-formed and stays so across a
split at `t = 4`. -/
theorem applyOp_preserves_trim_invariant_witness :
    wfState demoState ∧ wfState (applyOp demoState (TimelineOp.splitAt 1 0 4)) :=
  ⟨by decide, applyOp_preserves_trim_invariant demoState (TimelineOp.splitAt 1 0 4) (by decide)⟩

/-! ### Atomicity of the external-media drop loop -/

/-- One drop iteration appends exactly one media item. -/
theorem dropStep_mediaItems (s : MediaLibraryState) (p : ProcessedItem) :
    (dropStep s p).mediaItems = s.mediaItems ++
      [{ id := s.nextMediaId, name := p.name, url := p.url, duration := p.duration }] := by
  unfold dropStep addMediaItem
  dsimp only
  split <;> rfl

/-- One drop iteration only appends tracks. -/
theorem dropStep_tracks (s : MediaLibraryState) (p : ProcessedItem) :
    ∃ mtracks, (dropStep s p).timeline.tracks = s.timeline.tracks ++ mtracks := by
  unfold dropStep addMediaItem addMediaToNewTrack
  dsimp only
  split
  · exact ⟨_, rfl⟩
  · exact ⟨[], by simp⟩

/-- Unfolding equation: the loop stops at a failing first item. -/
theorem handleDropFiles_fail_zero (s : MediaLibraryState) (p : ProcessedItem)
    (rest : List ProcessedItem) : handleDropFiles s (p :: rest) (some 0) = s := rfl

/-- Unfolding equation: a surviving first item is processed and the failure
counter decremented. -/
theorem handleDropFiles_cons_succ (s : MediaLibraryState) (p : ProcessedItem)
    (rest : List ProcessedItem) (n : Nat) :
    handleDropFiles s (p :: rest) (some (n + 1)) =
      handleDropFiles (dropStep s p) rest (some n) := rfl

/-- Unfolding equation: the failure-free loop processes the first item. -/
theorem handleDropFiles_cons_none (s : MediaLibraryState) (p : ProcessedItem)
    (rest : List ProcessedItem) :
    handleDropFiles s (p :: rest) none = handleDropFiles (dropStep s p) rest none := rfl

/-- The whole drop loop only appends media items and tracks. -/
theorem handleDropFiles_extends (items : List ProcessedItem) :
    ∀ (s : MediaLibraryState) (failAt : Option Nat),
      ∃ more mtracks,
        (handleDropFiles s items failAt).mediaItems = s.mediaItems ++ more ∧
        (handleDropFiles s items failAt).timeline.tracks = s.timeline.tracks ++ mtracks := by
  induction items with
  | nil =>
    intro s failAt
    exact ⟨[], [], by simp [handleDropFiles], by simp [handleDropFiles]⟩
  | cons p rest ih =>
    intro s failAt
    match failAt with
    | some 0 => exact ⟨[], [], by simp [handleDropFiles], by simp [handleDropFiles]⟩
    | some (n + 1) =>
      obtain ⟨m2, t2, hm2, ht2⟩ := ih (dropStep s p) (some n)
      obtain ⟨t1, ht1⟩ := dropStep_tracks s p
      rw [handleDropFiles_cons_succ]
      exact ⟨_, _, by rw [hm2, dropStep_mediaItems, List.append_assoc],
             by rw [ht2, ht1, List.append_assoc]⟩
    | none =>
      obtain ⟨m2, t2, hm2, ht2⟩ := ih (dropStep s p) none
      obtain ⟨t1, ht1⟩ := dropStep_tracks s p
      rw [handleDropFiles_cons_none]
      exact ⟨_, _, by rw [hm2, dropStep_mediaItems, List.append_assoc],
             by rw [ht2, ht1, List.append_assoc]⟩

/-- Every media item of the loop's result is an initial one or carries the
name and url of some processed item. -/
theorem handleDropFiles_media_from (items : List ProcessedItem) :
    ∀ (s : MediaLibraryState) (failAt : Option Nat),
      ∀ m ∈ (handleDropFiles s items failAt).mediaItems,
        m ∈ s.mediaItems ∨ ∃ p ∈ items, m.name = p.name ∧ m.url = p.url := by
  induction items with
  | nil =>
    intro s failAt m hm
    exact Or.inl (by simpa [handleDropFiles] using hm)
  | cons p rest ih =>
    intro s failAt m hm
    match failAt with
    | some 0 => exact Or.inl (by simpa [handleDropFiles] using hm)
    | some (n + 1) =>
      rcases ih (dropStep s p) (some n) m hm with h0 | ⟨q, hq, hmq⟩
      · rw [dropStep_mediaItems] at h0
        rcases List.mem_append.mp h0 with h1 | h1
        · exact Or.inl h1
        · have hmeq :
              m = { id := s.nextMediaId, name := p.name, url := p.url,
                    duration := p.duration } := by
            simpa using h1
          subst hmeq
          exact Or.inr ⟨p, List.mem_cons_self p rest, rfl, rfl⟩
      · exact Or.inr ⟨q, List.mem_cons_of_mem p hq, hmq⟩
    | none =>
      rcases ih (dropStep s p) none m hm with h0 | ⟨q, hq, hmq⟩
      · rw [dropStep_mediaItems] at h0
        rcases List.mem_append.mp h0 with h1 | h1
        · exact Or.inl h1
        · have hmeq :
              m = { id := s.nextMediaId, name := p.name, url := p.url,
                    duration := p.duration } := by
            simpa using h1
          subst hmeq
          exact Or.inr ⟨p, List.mem_cons_self p rest, rfl, rfl⟩
      · exact Or.inr ⟨q, List.mem_cons_of_mem p hq, hmq⟩

/-- When no existing media item collides on (name, url), one drop iteration
adds the item to the media list AND to a fresh track referencing it. -/
theorem dropStep_adds (s : MediaLibraryState) (p : ProcessedItem)
    (hnone : ∀ m ∈ s.mediaItems, ¬(m.name = p.name ∧ m.url = p.url)) :
    ∃ mNew ∈ (dropStep s p).mediaItems,
      mNew.name = p.name ∧ mNew.url = p.url ∧
      ∃ tr ∈ (dropStep s p).timeline.tracks, ∃ e ∈ tr.elements, e.mediaId = mNew.id := by
  have hpre : s.mediaItems.find? (fun m => m.name == p.name && m.url == p.url) = none := by
    rw [List.find?_eq_none]
    intro m hm
    have := hnone m hm
    simp only [Bool.and_eq_true, beq_iff_eq]
    exact fun hcon => this ⟨hcon.1, hcon.2⟩
  have hfind : ((addMediaItem s p).mediaItems).find?
      (fun m => m.name == p.name && m.url == p.url) =
      some { id := s.nextMediaId, name := p.name, url := p.url, duration := p.duration } := by
    unfold addMediaItem
    dsimp only
    rw [List.find?_append, hpre]
    simp
  unfold dropStep
  dsimp only
  rw [hfind]
  dsimp only
  refine ⟨{ id := s.nextMediaId, name := p.name, url := p.url, duration := p.duration },
          ?_, rfl, rfl, ?_⟩
  · unfold addMediaItem
    simp
  · unfold addMediaToNewTrack
    dsimp only
    refine ⟨_, List.mem_append_right _ (List.mem_singleton_self _), ?_⟩
    exact ⟨_, List.mem_singleton_self _, rfl⟩

/-- C9: during a timeline drop of external files, no partially-added item
remains: with distinct (name, url) keys (object URLs are unique), every
processed item before the failure point ends up both in the media list and
referenced by a track element, and every item at or after the failure point
(`failAt = some k` models `addMediaItem` throwing on item `k`) appears in
neither. -/
theorem handleDropFiles_atomic
    (s : MediaLibraryState) (items : List ProcessedItem) (failAt : Option Nat)
    (hdisj : ∀ m ∈ s.mediaItems, ∀ p ∈ items, ¬(m.name = p.name ∧ m.url = p.url))
    (hpair : items.Pairwise (fun a b => ¬(a.name = b.name ∧ a.url = b.url)))
    (i : Nat) (hi : i < items.length) :
    ((∀ k, failAt = some k → i < k) →
       ∃ m ∈ (handleDropFiles s items failAt).mediaItems,
         m.name = (items.get ⟨i, hi⟩).name ∧ m.url = (items.get ⟨i, hi⟩).url ∧
         ∃ tr ∈ (handleDropFiles s items failAt).timeline.tracks,
           ∃ e ∈ tr.elements, e.mediaId = m.id) ∧
    (∀ k, failAt = some k → k ≤ i →
       ∀ m ∈ (handleDropFiles s items failAt).mediaItems,
         ¬(m.name = (items.get ⟨i, hi⟩).name ∧ m.url = (items.get ⟨i, hi⟩).url)) := by
  revert s failAt hdisj hpair i hi
  induction items with
  | nil =>
    intro s failAt hdisj hpair i hi
    exact absurd hi (by simp)
  | cons p rest ih =>
    intro s failAt hdisj hpair i hi
    have hpairc := List.pairwise_cons.mp hpair
    have hdisjstep : ∀ m ∈ (dropStep s p).mediaItems, ∀ q ∈ rest,
        ¬(m.name = q.name ∧ m.url = q.url) := by
      intro m hm q hq
      rw [dropStep_mediaItems] at hm
      rcases List.mem_append.mp hm with h1 | h1
      · exact hdisj m h1 q (List.mem_cons_of_mem p hq)
      · have hmeq :
            m = { id := s.nextMediaId, name := p.name, url := p.url,
                  duration := p.duration } := by
          simpa using h1
        subst hmeq
        intro hcon
        exact hpairc.1 q hq ⟨hcon.1, hcon.2⟩
    match i with
    | 0 =>
      constructor
      · intro hproc
        cases failAt with
        | none =>
          rw [handleDropFiles_cons_none]
          obtain ⟨mNew, hmNew, hname, hurl, tr, htr, e, he, hid⟩ :=
            dropStep_adds s p (fun m hm => hdisj m hm p (List.mem_cons_self p rest))
          obtain ⟨more, mtracks, hmore, htracks⟩ :=
            handleDropFiles_extends rest (dropStep s p) none
          exact ⟨mNew, by rw [hmore]; exact List.mem_append_left _ hmNew, hname, hurl,
                 tr, by rw [htracks]; exact List.mem_append_left _ htr, e, he, hid⟩
        | some k =>
          have hk := hproc k rfl
          match k, hk with
          | n + 1, _ =>
            rw [handleDropFiles_cons_succ]
            obtain ⟨mNew, hmNew, hname, hurl, tr, htr, e, he, hid⟩ :=
              dropStep_adds s p (fun m hm => hdisj m hm p (List.mem_cons_self p rest))
            obtain ⟨more, mtracks, hmore, htracks⟩ :=
              handleDropFiles_extends rest (dropStep s p) (some n)
            exact ⟨mNew, by rw [hmore]; exact List.mem_append_left _ hmNew, hname, hurl,
                   tr, by rw [htracks]; exact List.mem_append_left _ htr, e, he, hid⟩
      · intro k hk hle
        subst hk
        have hk0 : k = 0 := Nat.le_zero.mp hle
        subst hk0
        rw [handleDropFiles_fail_zero]
        intro m hm
        exact hdisj m hm p (List.mem_cons_self p rest)
    | j + 1 =>
      have hj : j < rest.length := by simpa using hi
      have hgeteq : (p :: rest).get ⟨j + 1, hi⟩ = rest.get ⟨j, hj⟩ := rfl
      constructor
      · intro hproc
        cases failAt with
        | none =>
          rw [handleDropFiles_cons_none, hgeteq]
          exact (ih (dropStep s p) none hdisjstep hpairc.2 j hj).1
            (by intro k hk; cases hk)
        | some k =>
          have hk0 := hproc k rfl
          match k, hk0 with
          | n + 1, _ =>
            rw [handleDropFiles_cons_succ, hgeteq]
            refine (ih (dropStep s p) (some n) hdisjstep hpairc.2 j hj).1 ?_
            intro k2 hk2
            cases hk2
            omega
      · intro k hk hle
        subst hk
        match k, hle with
        | 0, _ =>
          rw [handleDropFiles_fail_zero]
          intro m hm
          rw [hgeteq]
          exact hdisj m hm (rest.get ⟨j, hj⟩)
            (List.mem_cons_of_mem p (rest.get_mem _ _))
        | n + 1, hle2 =>
          rw [handleDropFiles_cons_succ]
          intro m hm
          rw [hgeteq]
          exact (ih (dropStep s p) (some n) hdisjstep hpairc.2 j hj).2 n rfl
            (by omega) m hm

unseal Rat.add Rat.sub Rat.mul Rat.inv in
/-- Witness for C9: dropping two files where `addMediaItem` throws on the
second — the first is fully added (media list and a referencing track), the
second is in neither. -/
theorem handleDropFiles_atomic_witness :
    ((∀ m ∈ dropDemoState.mediaItems, ∀ p ∈ dropDemoItems,
        ¬(m.name = p.name ∧ m.url = p.url)) ∧
     dropDemoItems.Pairwise (fun a b => ¬(a.name = b.name ∧ a.url = b.url)) ∧
     0 < dropDemoItems.length) ∧
    (((∀ k, (some 1 : Option Nat) = some k → 0 < k) →
        ∃ m ∈ (handleDropFiles dropDemoState dropDemoItems (some 1)).mediaItems,
          m.name = "a" ∧ m.url = "u1" ∧
          ∃ tr ∈ (handleDropFiles dropDemoState dropDemoItems (some 1)).timeline.tracks,
            ∃ e ∈ tr.elements, e.mediaId = m.id) ∧
     (∀ k, (some 1 : Option Nat) = some k → k ≤ 0 →
        ∀ m ∈ (handleDropFiles dropDemoState dropDemoItems (some 1)).mediaItems,
          ¬(m.name = "a" ∧ m.url = "u1"))) :=
  ⟨⟨by decide, by decide, by decide⟩,
   handleDropFiles_atomic dropDemoState dropDemoItems (some 1)
     (by decide) (by decide) 0 (by decide)⟩

end HashCut
